import Mathlib

/-!
Verification of the tfenv-rs version manager (src/main.rs, src/version.rs,
src/installer.rs) against its natural-language specification.

The Rust sources are shallowly embedded: pure string manipulation is
translated to Lean functions on `String` / `List Char`; the filesystem,
environment variables and the network are explicit `World` fields; network
fetches performed by a run are recorded in an effect list.  External crates
(the semver parser/ordering, the regex engine, the SHA-256 hash, the HTML
scraper, the HTTP client) are collaborators outside this repository: they
are modelled from the spec, with each such definition marked in its doc
comment.  All definitions are executable.
-/

namespace TfenvRs

/-! ## Character and string utilities (ASCII models of the Rust std helpers) -/

/-- ASCII whitespace, the characters the Rust code can meet in the inputs
relevant here (`char::is_whitespace` and the regex class `\s` also accept
further Unicode whitespace, which never occurs in the data modelled). -/
def isWsChar (c : Char) : Bool :=
  (c == ' ') || (c == '\t') || (c == '\n') || (c == '\r') || (c == '\x0b') || (c == '\x0c')

/-- Split a character list at every character satisfying `p`; the separators
are dropped and empty pieces are kept, as in Rust `str::split`. -/
def splitOnPred (p : Char → Bool) : List Char → List (List Char)
  | [] => [[]]
  | c :: cs =>
    match splitOnPred p cs with
    | [] => [[]]
    | h :: t => if p c then [] :: h :: t else (c :: h) :: t

/-- Split at every occurrence of one character. -/
def splitOnCharL (sep : Char) : List Char → List (List Char) :=
  splitOnPred (fun c => c == sep)

/-- Rust `str::lines`: split on a newline, drop a final empty piece produced
by a trailing newline, and strip one trailing carriage return per line. -/
def rustLinesL (cs : List Char) : List (List Char) :=
  let parts := splitOnCharL '\n' cs
  let parts := if parts.getLast? = some [] then parts.dropLast else parts
  parts.map (fun l => if l.getLast? = some '\r' then l.dropLast else l)

/-- Rust `str::lines` on strings. -/
def rustLines (s : String) : List String :=
  (rustLinesL s.data).map (fun l => String.mk l)

/-- Rust `str::split_whitespace`: split on whitespace and drop empty pieces. -/
def splitWs (s : String) : List String :=
  ((splitOnPred isWsChar s.data).filter (fun l => l ≠ [])).map (fun l => String.mk l)

/-- Substring test on character lists (Rust `str::contains`). -/
def hasSubL : List Char → List Char → Bool
  | [], needle => needle.isEmpty
  | h :: t, needle => needle.isPrefixOf (h :: t) || hasSubL t needle

/-- Rust `str::contains` with a string pattern. -/
def strHasSub (s sub : String) : Bool := hasSubL s.data sub.data

/-- Rust `str::starts_with` with a string pattern. -/
def strStarts (s pat : String) : Bool := pat.data.isPrefixOf s.data

/-- Rust `str::ends_with` with a string pattern. -/
def strEnds (s pat : String) : Bool := pat.data.reverse.isPrefixOf s.data.reverse

/-- Rust `str::trim_start` (ASCII whitespace model). -/
def strTrimLeft (s : String) : String := String.mk (s.data.dropWhile isWsChar)

/-- Rust `str::trim` (ASCII whitespace model). -/
def strTrim (s : String) : String :=
  String.mk (((s.data.dropWhile isWsChar).reverse.dropWhile isWsChar).reverse)

/-- Rust `str::trim_end_matches('/')`: remove every trailing slash. -/
def trimEndSlashes (s : String) : String :=
  String.mk ((s.data.reverse.dropWhile (fun c => c == '/')).reverse)

/-- Rust `str::trim_start_matches('v')`: remove every leading `v`. -/
def trimLeadingVs (s : String) : String :=
  String.mk (s.data.dropWhile (fun c => c == 'v'))

/-- Rust `str::contains(char)`. -/
def strHasChar (s : String) (c : Char) : Bool := s.data.contains c

/-- Rust `str::find(sub)` followed by taking the text after the found
occurrence: the remainder after the first occurrence of `sub`. -/
def dropToAfterSub : List Char → List Char → Option (List Char)
  | [], sub => if sub.isEmpty then some [] else none
  | h :: t, sub =>
    if sub.isPrefixOf (h :: t) then some ((h :: t).drop sub.length)
    else dropToAfterSub t sub

/-- The text after the first occurrence of a colon, used for
`req[i + 1..]` where `i = req.find(..)` with a colon pattern. -/
def afterFirstColon (s : String) : String :=
  String.mk ((s.data.dropWhile (fun c => c != ':')).tail)

/-- Rust `str::to_lowercase` (ASCII model, characterwise). -/
def strToLower (s : String) : String := String.mk (s.data.map Char.toLower)

/-- Join strings with a separator (Rust `Vec::join` / display of a
dot-separated identifier list). -/
def joinWith (sep : String) : List String → String
  | [] => ("")
  | [x] => x
  | x :: y :: rest => x ++ sep ++ joinWith sep (y :: rest)

/-- Rust `Option::unwrap_or` / `Result::unwrap_or_else` for environment
variables: the value when the variable is set, otherwise the default. -/
def getEnvD (v : Option String) (d : String) : String := v.getD d

/-! ## Semantic versions

Modelled from the spec: a Version is `{major, minor, patch, prerelease?}`,
totally ordered by standard semantic-versioning precedence, a prerelease
sorting below its release.  This models the external `semver` crate the
source calls for `Version::parse`, `sort` and `to_string`; build metadata
(`+...`) is outside the spec data model and such strings are rejected. -/

structure Version where
  major : Nat
  minor : Nat
  patch : Nat
  pre : List String
deriving DecidableEq

/-- Numeric value of a decimal digit. -/
def digitVal (c : Char) : Nat := c.toNat - 48

/-- Read a decimal number without leading zeros from the front of a list,
returning the value and the rest. -/
def readNum (cs : List Char) : Option (Nat × List Char) :=
  let ds := cs.takeWhile Char.isDigit
  let rest := cs.dropWhile Char.isDigit
  if ds = [] then none
  else if 1 < ds.length ∧ ds.headD (' ') = '0' then none
  else some (ds.foldl (fun a c => a * 10 + digitVal c) 0, rest)

/-- A character allowed in a prerelease identifier. -/
def isIdentChar (c : Char) : Bool := c.isAlpha || c.isDigit || c == '-'

/-- No multi-digit run starting with zero. -/
def noLeadZero : List Char → Bool
  | [] => true
  | [_] => true
  | c :: _ :: _ => c != '0'

/-- A valid prerelease identifier: nonempty, alphanumeric or hyphen
characters, and no leading zero when purely numeric. -/
def validIdent (cs : List Char) : Bool :=
  (!cs.isEmpty) && cs.all isIdentChar &&
    (if cs.all Char.isDigit then noLeadZero cs else true)

/-- Modelled from the spec: `semver::Version::parse`.  Requires
`major.minor.patch`, numeric components without leading zeros, and an
optional `-prerelease` of dot-separated valid identifiers. -/
def parseVersion (s : String) : Option Version :=
  match readNum s.data with
  | none => none
  | some (ma, r1) =>
    match r1 with
    | '.' :: r2 =>
      match readNum r2 with
      | none => none
      | some (mi, r3) =>
        match r3 with
        | '.' :: r4 =>
          match readNum r4 with
          | none => none
          | some (pa, r5) =>
            match r5 with
            | [] => some ⟨ma, mi, pa, []⟩
            | '-' :: r6 =>
              let ids := splitOnCharL '.' r6
              if ids.all (fun i => validIdent i) then
                some ⟨ma, mi, pa, ids.map (fun i => String.mk i)⟩
              else none
            | _ => none
        | _ => none
    | _ => none

/-- Modelled from the spec: `Version::to_string` of the semver crate. -/
def verToString (v : Version) : String :=
  toString v.major ++ (".") ++ toString v.minor ++ (".") ++ toString v.patch ++
    (if v.pre.isEmpty then ("") else ("-") ++ joinWith (".") v.pre)

/-- Strict lexicographic (ASCII) order on character lists. -/
def lexLt : List Char → List Char → Bool
  | [], [] => false
  | [], _ :: _ => true
  | _ :: _, [] => false
  | a :: as, b :: bs => if a == b then lexLt as bs else decide (a.toNat < b.toNat)

/-- A purely numeric identifier without a leading zero. -/
def identIsNum (cs : List Char) : Bool :=
  (!cs.isEmpty) && cs.all Char.isDigit && noLeadZero cs

/-- One lexicographic comparison step: equal components defer to the rest
of the comparison. -/
def lexStep (a b : Nat) (rest : Bool) : Bool := if a = b then rest else decide (a < b)

/-- Numeric order on numerals without leading zeros: a longer numeral is
larger and equal lengths compare lexicographically, which agrees with
comparison by value. -/
def numLt (x y : List Char) : Bool := lexStep x.length y.length (lexLt x y)

/-- Modelled from the spec: semver precedence of prerelease identifiers.
Numeric identifiers sort below alphanumeric ones and numerically among
themselves; alphanumeric identifiers sort in ASCII order. -/
def identLt (x y : String) : Bool :=
  if identIsNum x.data then
    if identIsNum y.data then numLt x.data y.data else true
  else
    if identIsNum y.data then false else lexLt x.data y.data

/-- Lexicographic order on nonempty prerelease identifier lists; a strict
prefix sorts first. -/
def preLe : List String → List String → Bool
  | [], _ => true
  | _ :: _, [] => false
  | a :: as, b :: bs => if a == b then preLe as bs else identLt a b

/-- Prerelease comparison including the empty (release) case: a release is
greater than every prerelease of the same numeric triple. -/
def preOrdLe (x y : List String) : Bool :=
  match x, y with
  | [], [] => true
  | [], _ :: _ => false
  | _ :: _, [] => true
  | _ :: _, _ :: _ => preLe x y

/-- Modelled from the spec: the total semver precedence order used by
`Vec::<Version>::sort`: major, then minor, then patch, then prerelease. -/
def vle (x y : Version) : Bool :=
  lexStep x.major y.major (lexStep x.minor y.minor (lexStep x.patch y.patch
    (preOrdLe x.pre y.pre)))

/-- Stable insertion into a sorted list: the new element goes before the
first strictly greater element and before existing ties. -/
def insertLe {α : Type} (le : α → α → Bool) (a : α) : List α → List α
  | [] => [a]
  | b :: bs => if le a b then a :: b :: bs else b :: insertLe le a bs

/-- Stable insertion sort, ascending.  Models Rust `Vec::sort` (a stable
ascending sort): for a total transitive comparison any two stable sorts
agree, and `vle` below is additionally antisymmetric, making the sorted
list unique outright. -/
def isortLe {α : Type} (le : α → α → Bool) : List α → List α
  | [] => []
  | x :: xs => insertLe le x (isortLe le xs)

/-! ## Hand-compiled regular expressions

The regex engine is an external collaborator; each fixed pattern appearing
in the source is compiled by hand to an executable Lean function with the
engine's leftmost-first, greedy-with-backtracking semantics. -/

/-- All characters are decimal digits. -/
def allDigits (cs : List Char) : Bool := cs.all Char.isDigit

/-- The anchored pattern `^[0-9]+\.[0-9]+\.[0-9]+$`: exactly three nonempty
digit runs separated by single dots. -/
def numTripleL (cs : List Char) : Bool :=
  match splitOnCharL '.' cs with
  | [a, b, c] =>
    (!a.isEmpty) && (!b.isEmpty) && (!c.isEmpty) && allDigits a && allDigits b && allDigits c
  | _ => false

/-- `numTripleL` on strings. -/
def numTripleS (s : String) : Bool := numTripleL s.data

/-- Unescape a regex consisting only of literal characters and backslash
escapes; `none` when an unescaped metacharacter appears. -/
def unescapeLit : List Char → Option (List Char)
  | [] => some []
  | '\\' :: c :: rest => (unescapeLit rest).map (fun l => c :: l)
  | '\\' :: [] => none
  | c :: rest =>
    if (c == '^') || (c == '$') || (c == '.') || (c == '[') || (c == ']') ||
        (c == '(') || (c == ')') || (c == '*') || (c == '+') || (c == '?') || (c == '|') then
      none
    else (unescapeLit rest).map (fun l => c :: l)

/-- A caret-anchored literal pattern `^lit` (with escapes), as produced by
`latest_allowed_to_requested`. -/
def caretLitOf (pat : String) : Option (List Char) :=
  match pat.data with
  | '^' :: rest => unescapeLit rest
  | _ => none

/-- Modelled from the spec: the external regex engine, on the pattern
family the program applies to version names: the default
`^[0-9]+\.[0-9]+\.[0-9]+$` three-component pattern and the caret-anchored
escaped-prefix patterns produced by `latest_allowed_to_requested`.  Other
patterns are outside the model and match nothing. -/
def regexModel (pat : String) : String → Bool :=
  if pat = "^[0-9]+\\.[0-9]+\\.[0-9]+$" then numTripleS
  else
    match caretLitOf pat with
    | some lit => fun s => lit.isPrefixOf s.data
    | none => fun _ => false

/-- A version-specifier operator character, the class `[~=!<>]`. -/
def isOpChar (c : Char) : Bool :=
  (c == '~') || (c == '=') || (c == '!') || (c == '<') || (c == '>')

/-- Greedily take up to two characters satisfying `p`. -/
def takeUpTo2 (p : Char → Bool) (cs : List Char) : List Char × List Char :=
  match cs with
  | [] => ([], [])
  | a :: rest =>
    if p a then
      match rest with
      | [] => ([a], [])
      | b :: rest2 => if p b then ([a, b], rest2) else ([a], rest)
    else ([], cs)

/-- A lowercase ASCII letter, the class `[a-z]`. -/
def isLowerAlpha (c : Char) : Bool := decide (97 ≤ c.toNat ∧ c.toNat ≤ 122)

/-- One step of `(?:\.[0-9]+)`: a dot followed by a nonempty digit run. -/
def dotDigits1 (cs : List Char) : Option (List Char × List Char) :=
  match cs with
  | '.' :: rest =>
    let ds := rest.takeWhile Char.isDigit
    if ds.isEmpty then none else some ('.' :: ds, rest.dropWhile Char.isDigit)
  | _ => none

/-- Greedy `(?:\.[0-9]+){0,2}`. -/
def dotDigitsUpTo2 (cs : List Char) : List Char × List Char :=
  match dotDigits1 cs with
  | none => ([], cs)
  | some (seg1, r1) =>
    match dotDigits1 r1 with
    | none => (seg1, r1)
    | some (seg2, r2) => (seg1 ++ seg2, r2)

/-- Greedy optional `(-[a-z]+[0-9]+)?`. -/
def postOpt (cs : List Char) : Option (List Char) × List Char :=
  match cs with
  | '-' :: rest =>
    let ls := rest.takeWhile isLowerAlpha
    let r1 := rest.dropWhile isLowerAlpha
    if ls.isEmpty then (none, cs)
    else
      let ds := r1.takeWhile Char.isDigit
      if ds.isEmpty then (none, cs)
      else (some ('-' :: (ls ++ ds)), r1.dropWhile Char.isDigit)
  | _ => (none, cs)

/-- Try `([~=!<>]{0,2}\s*)([0-9]+(?:\.[0-9]+){0,2})(-[a-z]+[0-9]+)?` at one
position.  For this pattern greedy maximal munch agrees with full
backtracking: each repetition's character class is disjoint from the
character that must follow it. -/
def reVerAt (cs : List Char) : Option (String × String × Option String) :=
  let (ops, r1) := takeUpTo2 isOpChar cs
  let ws := r1.takeWhile isWsChar
  let r2 := r1.dropWhile isWsChar
  let ds := r2.takeWhile Char.isDigit
  if ds.isEmpty then none
  else
    let r3 := r2.dropWhile Char.isDigit
    let (ext, r4) := dotDigitsUpTo2 r3
    let (post, _) := postOpt r4
    some (String.mk (ops ++ ws), String.mk (ds ++ ext), post.map (fun l => String.mk l))

/-- Leftmost match of the version-capture regex: the first position from
which a match exists wins. -/
def reVerScan : List Char → Option (String × String × Option String)
  | [] => none
  | c :: rest =>
    match reVerAt (c :: rest) with
    | some r => some r
    | none => reVerScan rest

/-- Hand-compiled `Regex::captures` for the source's
`([~=!<>]{0,2}\s*)([0-9]+(?:\.[0-9]+){0,2})(-[a-z]+[0-9]+)?`, returning the
qualifier group, the numeric group and the optional suffix group. -/
def reVerCapture (s : String) : Option (String × String × Option String) := reVerScan s.data

/-- Suffixes of `cs` that begin just after a newline. -/
def afterNewlineSuffixes : List Char → List (List Char)
  | [] => []
  | c :: rest => (if c == '\n' then [rest] else []) ++ afterNewlineSuffixes rest

/-- All positions where `(?m)^` matches, in positional order. -/
def lineStartSuffixes (cs : List Char) : List (List Char) := cs :: afterNewlineSuffixes cs

/-- Not a double quote, the class `[^"]`. -/
def notQuote (c : Char) : Bool := c != '"'

/-- All ways to strip a whitespace run, longest first: the backtracking
order of a greedy `\s*`. -/
def wsDrops (cs : List Char) : List (List Char) :=
  ((List.range ((cs.takeWhile isWsChar).length + 1)).reverse).map (fun k => cs.drop k)

/-- All ways to strip a hash-free run, longest first: the backtracking
order of a greedy `[^#]*`. -/
def nonHashDrops (cs : List Char) : List (List Char) :=
  ((List.range ((cs.takeWhile (fun c => c != '#')).length + 1)).reverse).map
    (fun k => cs.drop k)

/-- Consume one character of class `p` when possible, preferring to take
it: the backtracking order of a greedy optional. -/
def optChar (p : Char → Bool) (cs : List Char) : List (List Char) :=
  match cs with
  | c :: rest => if p c then [rest, c :: rest] else [c :: rest]
  | [] => [[]]

/-- The spec capture of `\s*[:=]?\s*\(?"?([^"]+)"?\)?` at a position, in
backtracking preference order; `none` when `[^"]+` cannot take at least one
character under any configuration. -/
def reLineTail (cs : List Char) : Option (List Char) :=
  (wsDrops cs).findSome? (fun r1 =>
    (optChar (fun c => (c == ':') || (c == '=')) r1).findSome? (fun r2 =>
      (wsDrops r2).findSome? (fun r3 =>
        (optChar (fun c => c == '(') r3).findSome? (fun r4 =>
          (optChar (fun c => c == '"') r4).findSome? (fun r5 =>
            let cap := r5.takeWhile notQuote
            if cap.isEmpty then none else some cap)))))

/-- The literal `required_version`. -/
def rvLit : List Char := ("required_version").data

/-- Match `\s*[^#]*required_version<tail>` at one line start, with the
greedy preference of the engine: the longest whitespace run first, then the
longest hash-free run first, which locks the literal onto the last
occurrence reachable without crossing a hash character. -/
def reLineAt (cs : List Char) : Option (List Char) :=
  (wsDrops cs).findSome? (fun r1 =>
    (nonHashDrops r1).findSome? (fun r2 =>
      if rvLit.isPrefixOf r2 then reLineTail (r2.drop rvLit.length) else none))

/-- Hand-compiled first match of the source's line regex
`(?m)^\s*[^#]*required_version\s*[:=]?\s*\(?"?(?P<spec>[^"]+)"?\)?`: the
spec capture of the leftmost match.  `min_required` only reads the first
element of `captures_iter`, which is this match. -/
def reLineFirstSpec (s : String) : Option String :=
  ((lineStartSuffixes s.data).findSome? reLineAt).map (fun l => String.mk l)

/-- A digit or a dot, the class `[0-9.]`. -/
def isNumDotChar (c : Char) : Bool := c.isDigit || (c == '.')

/-- First maximal run of digits and dots. -/
def firstNumRunL : List Char → Option (List Char)
  | [] => none
  | c :: rest =>
    if isNumDotChar c then some ((c :: rest).takeWhile isNumDotChar) else firstNumRunL rest

/-- Rust `Regex::new("[0-9.]+").find(s)` followed by `unwrap_or("")`. -/
def firstNumRun (s : String) : String :=
  match firstNumRunL s.data with
  | some run => String.mk run
  | none => ("")

/-- Rust `str::rfind('.')` followed by taking the text before it. -/
def beforeLastDot (s : String) : Option String :=
  match s.data.reverse.dropWhile (fun c => c != '.') with
  | [] => none
  | _ :: pre => some (String.mk pre.reverse)

/-! ## The world a run observes

Environment variables, the relevant filesystem contents, the remote index
page and the regex-engine capability, gathered in one record.  Network
fetches performed by a resolution are recorded in an effect list. -/

deriving instance DecidableEq for Except

/-- The environment variables the resolver reads (`None` means unset). -/
structure Env where
  product : Option String
  remote : Option String
  autoInstall : Option String
  versionVar : Option String
deriving DecidableEq

/-- One observable network effect of resolution. -/
inductive Eff where
  /-- A fetch of the remote release-index page. -/
  | fetchCatalog
deriving DecidableEq

/-- The state a resolution run observes. -/
structure World where
  /-- Environment variables. -/
  env : Env
  /-- The `(file name, contents)` entries of the working directory, in
  filesystem enumeration order (the entries `fs::read_dir` yields). -/
  cwdFiles : List (String × String)
  /-- Names of the subdirectories of `<config_dir>/versions`, or `none`
  when that directory does not exist. -/
  versionsDirs : Option (List String)
  /-- The anchor-link targets of the remote index page, in document
  order (what the scraper collaborator extracts from the fetched body). -/
  catalogHrefs : List String
  /-- Raw contents of the first `.terraform-version` file found walking up
  from the working directory, `none` when no ancestor has one (the walk of
  `find_local_version_file` collapsed to its outcome). -/
  localVersionFile : Option String
  /-- Contents of `$HOME/.terraform-version`, `none` when absent. -/
  homeVersionFile : Option String
  /-- Contents of `<config_dir>/version`, the pin written by the `use`
  subcommand, `none` when absent. -/
  pinnedVersion : Option String
  /-- The regex-engine collaborator: compile a pattern to a matcher. -/
  compile : String → String → Bool
  /-- Fuel bounding the `.0`-padding loop of `min_required`; the loop in
  the source is unbounded, and a `none` result at every fuel means it
  never exits. -/
  padFuel : Nat

/-! ## version.rs: the constraint extractor -/

/-- A file name the extractor scans: `*.tf` or `*.tf.json`. -/
def matchTf (name : String) : Bool :=
  strEnds name (".tf") || strEnds name (".tf.json")

/-- `min_required`'s accumulation: the contents of every matching file in
enumeration order, each followed by a newline. -/
def combinedOf (files : List (String × String)) : String :=
  files.foldl
    (fun acc f => if matchTf f.fst then acc ++ f.snd ++ ("\n") else acc) ("")

/-- The padding loop of `min_required`: append `.0` until the string
matches `^[0-9]+\.[0-9]+\.[0-9]+$`, giving up when fuel runs out (the
source loops unboundedly). -/
def padLoop : Nat → String → Option String
  | 0, s => if numTripleS s then some s else none
  | n + 1, s => if numTripleS s then some s else padLoop n (s ++ (".0"))

/-- `min_required` of src/version.rs: scan the matching files of the
working directory, take the spec capture of the first line-regex match
over the concatenated contents, extract the version token with the
capture regex, return nothing when the qualifier starts with `!=`, and
pad the token with `.0` up to a three-component version. -/
def minRequired (fuel : Nat) (files : List (String × String)) : Option String :=
  match reLineFirstSpec (combinedOf files) with
  | none => none
  | some first =>
    match reVerCapture first with
    | none => none
    | some (qual, num, post) =>
      if strStarts (strTrimLeft qual) ("!=") then none
      else padLoop fuel (num ++ post.getD (""))

/-- First line containing `required_version` in one file's contents. -/
def firstRvLine (content : String) : Option String :=
  (rustLines content).find? (fun l => strHasSub l ("required_version"))

/-- The `spec_line` accumulation of `latest_allowed_to_requested`: the
inner loop breaks at a file's first matching line, but the outer loop
keeps scanning, so a later matching file overwrites an earlier one. -/
def specLineOf (files : List (String × String)) : String :=
  files.foldl
    (fun acc f =>
      if matchTf f.fst then
        match firstRvLine f.snd with
        | some l => l
        | none => acc
      else acc) ("")

/-- `latest_allowed_to_requested` of src/version.rs: map the found
`required_version` specifier to a `latest`-family request string. -/
def latestAllowedToRequested (files : List (String × String)) : Option String :=
  let specLine := specLineOf files
  if specLine = "" then none
  else
    let parts := (splitOnCharL '"' specLine.data).map (fun l => String.mk l)
    let verSpec := if 2 ≤ parts.length then parts.getD 1 ("") else specLine
    let versionNum := firstNumRun verSpec
    if strStarts (strTrimLeft verSpec) (">") then some ("latest")
    else if strStarts (strTrimLeft verSpec) ("<=") || strStarts (strTrimLeft verSpec) ("<") then
      some versionNum
    else if strStarts (strTrimLeft verSpec) ("~>") then
      match beforeLastDot versionNum with
      | some pre => some (("latest:^") ++ pre ++ ("\\."))
      | none => none
    else none

/-! ## version.rs: local and remote matching -/

/-- The parsed versions among the installed directory names that match the
active pattern, in enumeration order. -/
def localCandidates (dirs : List String) (pat : String → Bool) : List Version :=
  (dirs.filter (fun d => pat d)).filterMap parseVersion

/-- `latest_local_matching` of src/version.rs: sort the matching installed
versions, reverse, and render the first. -/
def latestLocalMatching (vd : Option (List String)) (pat : String → Bool) : Option String :=
  match vd with
  | none => none
  | some dirs =>
    (((isortLe vle (localCandidates dirs pat)).reverse).head?).map verToString

/-- The version string a catalog anchor target yields for a product:
the `/terraform/` path form for terraform, the release-tag form for
opentofu, nothing for other products. -/
def hrefVersionOf (product href : String) : Option String :=
  if product = "terraform" then
    if ("/terraform/").data.isPrefixOf href.data then
      some (trimEndSlashes (String.mk (href.data.drop (("/terraform/").length))))
    else none
  else if product = "opentofu" then
    match dropToAfterSub href.data (("/opentofu/opentofu/releases/tag/v").data) with
    | some rest => some (trimEndSlashes (String.mk rest))
    | none => none
  else none

/-- `latest_remote_matching` of src/version.rs: parse the catalog page's
links for the product, keep those matching the pattern, sort, reverse and
render the first. -/
def latestRemoteMatching (w : World) (pat : String → Bool) : Option String :=
  let product := strToLower (getEnvD w.env.product ("terraform"))
  let vs := w.catalogHrefs.filterMap (fun h =>
    match hrefVersionOf product h with
    | some v => if pat v then parseVersion v else none
    | none => none)
  (((isortLe vle vs).reverse).head?).map verToString

/-! ## version.rs: the resolver -/

/-- The active pattern text of a `latest` request: the text after the
colon when one is present, the exact three-component default otherwise. -/
def patternOf (req : String) : String :=
  if strHasChar req ':' then afterFirstColon req
  else ("^[0-9]+\\.[0-9]+\\.[0-9]+$")

/-- The `latest` branch of `resolve_requested`: prefer the locally
installed maximum (no network), otherwise query the remote catalog when
auto-install is enabled. -/
def resolveLatest (w : World) (req : String) : Except String String × List Eff :=
  let pat := w.compile (patternOf req)
  match latestLocalMatching w.versionsDirs pat with
  | some l => (Except.ok l, [])
  | none =>
    if getEnvD w.env.autoInstall ("true") = "true" then
      match latestRemoteMatching w pat with
      | some r => (Except.ok r, [Eff.fetchCatalog])
      | none =>
        (Except.error (("No versions matching ") ++ patternOf req ++ (" found in remote")),
          [Eff.fetchCatalog])
    else
      (Except.error (("No installed versions matched ") ++ patternOf req ++
        (" and auto-install disabled")), [])

/-- `resolve_requested` of src/version.rs: strip leading `v`s, handle
`min-required`, map `latest-allowed`, resolve `latest...` requests, and
return anything else as an exact pin. -/
def resolveRequested (w : World) (requested : String) : Except String String × List Eff :=
  let req := trimLeadingVs requested
  if req = "min-required" then
    match minRequired w.padFuel w.cwdFiles with
    | some m => (Except.ok m, [])
    | none => (Except.error ("min-required could not be determined"), [])
  else
    let req := if req = "latest-allowed" then (latestAllowedToRequested w.cwdFiles).getD req
               else req
    if strStarts req ("latest") then resolveLatest w req
    else (Except.ok req, [])

/-- Step 3 of `resolve_version_name`: the user-home declaration file. -/
def resolveStep3 (w : World) : Except String String × List Eff :=
  match w.homeVersionFile with
  | some content =>
    let s := strTrim content
    if s ≠ "" then resolveRequested w s else resolveRequested w ("latest")
  | none => resolveRequested w ("latest")

/-- Step 2 of `resolve_version_name`: the per-directory declaration file
found walking up from the working directory. -/
def resolveStep2 (w : World) : Except String String × List Eff :=
  match w.localVersionFile with
  | some content =>
    let s := strTrim content
    if s ≠ "" then resolveRequested w s else resolveStep3 w
  | none => resolveStep3 w

/-- `resolve_version_name` of src/version.rs: override variable, then the
per-directory file, then the home file, then the literal `latest`. -/
def resolveVersionName (w : World) : Except String String × List Eff :=
  match w.env.versionVar with
  | some v => if v ≠ "" then resolveRequested w v else resolveStep2 w
  | none => resolveStep2 w

/-- Spec candidate steps 3 to 4 (helper of `candidateSpec`). -/
def candidateSpecHome (w : World) : String :=
  match w.homeVersionFile with
  | some content =>
    if strTrim content ≠ "" then strTrim content else ("latest")
  | none => ("latest")

/-- Spec candidate steps 2 to 4 (helper of `candidateSpec`). -/
def candidateSpecFile (w : World) : String :=
  match w.localVersionFile with
  | some content =>
    if strTrim content ≠ "" then strTrim content else candidateSpecHome w
  | none => candidateSpecHome w

/-- The candidate string of §4.2 of the spec, written from the spec's
words for the refinement claim: override variable if non-empty, else the
trimmed per-directory file if non-empty, else the trimmed home file if
non-empty, else the literal `latest`. -/
def candidateSpec (w : World) : String :=
  match w.env.versionVar with
  | some v =>
    if v ≠ "" then v
    else candidateSpecFile w
  | none => candidateSpecFile w

/-- `set_default_version` of src/main.rs: the `use` subcommand writes the
requested version to `<config_dir>/version`. -/
def setDefaultVersion (w : World) (version : String) : World :=
  { w with pinnedVersion := some version }

/-! ## installer.rs: the install pipeline

The HTTP client, the zip extractor and the SHA-256 hash are collaborators:
fetched bodies, archive entry names and the computed digest of the
downloaded artifact are fields of `InstallWorld`.  Filesystem writes and
network fetches are recorded as effects; temp files live outside the
config directory and are not tracked. -/

/-- `map_os` of src/installer.rs, with `env::consts::OS` as argument. -/
def mapOs (os : String) : String := if os = "macos" then ("darwin") else os

/-- `map_arch` of src/installer.rs, with `env::consts::ARCH` as argument. -/
def mapArch (arch : String) : String :=
  if arch = "x86_64" then ("amd64") else if arch = "aarch64" then ("arm64") else arch

/-- `terraform_binary_name` of src/installer.rs on a non-Windows host. -/
def terraformBinaryName : String := ("terraform")

/-- `asset_name` of src/installer.rs. -/
def assetName (product version os arch : String) : String :=
  product ++ ("_") ++ version ++ ("_") ++ mapOs os ++ ("_") ++ mapArch arch ++ (".zip")

/-- `asset_url` of src/installer.rs. -/
def assetUrl (product remote version asset : String) : String :=
  let base := if strEnds remote ("/") then remote else remote ++ ("/")
  if product = "terraform" then base ++ version ++ ("/") ++ asset
  else base ++ ("v") ++ version ++ ("/") ++ asset

/-- The URL `fetch_sha256sums` of src/installer.rs fetches: the `_remote`
argument is ignored and the canonical HashiCorp path is always used. -/
def shaSumsUrl (_remote version : String) : String :=
  ("https://releases.hashicorp.com/terraform/") ++ version ++ ("/terraform_") ++ version ++
    ("_SHA256SUMS")

/-- The URL `fetch_sig` of src/installer.rs fetches: the `_remote`
argument is ignored and the canonical HashiCorp path is always used. -/
def sigUrl (_remote version : String) : String :=
  ("https://releases.hashicorp.com/terraform/") ++ version ++ ("/terraform_") ++ version ++
    ("_SHA256SUMS.sig")

/-- The canonical trust-root location of the spec. -/
def trustRoot : String := ("https://releases.hashicorp.com/terraform/")

/-- The digest-selection loop of `install_version`: the first line that
contains the asset name as a substring and splits into at least two
whitespace-separated fields yields its first field. -/
def findExpectedL : List String → String → Option String
  | [], _ => none
  | line :: rest, asset =>
    if strHasSub line asset then
      let parts := splitWs line
      if 2 ≤ parts.length then some (parts.getD 0 ("")) else findExpectedL rest asset
    else findExpectedL rest asset

/-- The expected digest `install_version` selects from the digest list. -/
def findExpected (sums asset : String) : Option String := findExpectedL (rustLines sums) asset

/-- The digest the list publishes for an asset, written from the spec's
words (`digest_list: mapping filename -> hex_digest`): the first field of
the line whose filename field equals the asset name exactly. -/
def specDigestFor (sums asset : String) : Option String :=
  (rustLines sums).findSome? (fun line =>
    let parts := splitWs line
    if parts.getD 1 ("") = asset ∧ 2 ≤ parts.length then some (parts.getD 0 (""))
    else none)

/-- The world an `install_version` run observes. -/
structure InstallWorld where
  /-- `TFENV_PRODUCT` (`none` means unset). -/
  product : Option String
  /-- `TFENV_REMOTE`, the configured mirror (`none` means unset). -/
  remote : Option String
  /-- `TFENV_TRUST_TFENV`. -/
  trustTfenv : Option String
  /-- Whether the `use-gpgv` marker file exists in the tfenv root. -/
  useGpgvFile : Bool
  /-- `env::consts::OS`. -/
  osConst : String
  /-- `env::consts::ARCH`. -/
  archConst : String
  /-- The SHA-256 hex digest `compute_sha256` yields for the downloaded
  artifact (the hash collaborator applied to the fetched bytes). -/
  artifactDigest : String
  /-- The body served at the canonical SHA256SUMS URL. -/
  sums : String
  /-- The outcome of the gpg signature verification collaborator. -/
  sigOk : Bool
  /-- The entry names of the downloaded archive. -/
  zipEntries : List String

/-- One observable effect of an install run.  File paths are component
lists relative to the config directory. -/
inductive FsEff where
  /-- Fetch of the release asset. -/
  | fetchAsset (url : String)
  /-- Fetch of the digest list. -/
  | fetchSums (url : String)
  /-- Fetch of the detached signature. -/
  | fetchSig (url : String)
  /-- `fs::create_dir_all`. -/
  | createDirAll (path : List String)
  /-- Creation and filling of a file. -/
  | writeFile (path : List String)
  /-- Setting the executable permission bit. -/
  | setExec (path : List String)
deriving DecidableEq

/-- The filesystem path an effect touches, `none` for fetches. -/
def effPath : FsEff → Option (List String)
  | FsEff.createDirAll p => some p
  | FsEff.writeFile p => some p
  | FsEff.setExec p => some p
  | _ => none

/-- Whether an effect creates a file or directory at or under
`versions/<version>/`. -/
def touchesVersionDir (version : String) (e : FsEff) : Bool :=
  match effPath e with
  | some p => ([("versions"), version]).isPrefixOf p
  | none => false

/-- `extract_zip_to_version` of src/installer.rs: create the version
directory, then place the first entry whose name ends with the binary
name. -/
def extractZipToVersion (entries : List String) (version : String) :
    Except String Unit × List FsEff :=
  let dirEff := [FsEff.createDirAll [("versions"), version]]
  match entries.find? (fun name =>
      strEnds name terraformBinaryName || strEnds name ("terraform")) with
  | some _ =>
    (Except.ok (),
      dirEff ++ [FsEff.writeFile [("versions"), version, terraformBinaryName],
        FsEff.setExec [("versions"), version, terraformBinaryName]])
  | none => (Except.error ("terraform binary not found inside archive"), dirEff)

/-- The default remote of `install_version` per product. -/
def defaultRemote (product : String) : String :=
  if product = "terraform" then ("https://releases.hashicorp.com/terraform/")
  else if product = "opentofu" then ("https://github.com/opentofu/opentofu/releases/download/")
  else ("")

/-- The tail of `install_version`: create the versions directory and
unpack the archive into it. -/
def installFinish (version : String) (entries : List String) (effs : List FsEff) :
    Except String Unit × List FsEff :=
  let effs := effs ++ [FsEff.createDirAll [("versions")]]
  let r := extractZipToVersion entries version
  (r.fst, effs ++ r.snd)

/-- `install_version` of src/installer.rs: compute the asset name, fetch,
verify the checksum against the digest list for the terraform product
(optionally also the gpg signature), then create the destination and
unpack.  Verification is skipped for other products. -/
def installVersion (w : InstallWorld) (requested : Option String) :
    Except String Unit × List FsEff :=
  let version := requested.getD ("latest")
  if version = "latest" then
    (Except.error ("latest resolution not implemented in installer; pass an explicit version"),
      [])
  else
    let product := strToLower (getEnvD w.product ("terraform"))
    let remote := getEnvD w.remote (defaultRemote product)
    let asset := assetName product version w.osConst w.archConst
    let url := assetUrl product remote version asset
    let effs0 := [FsEff.fetchAsset url]
    if product = "terraform" then
      let effs1 := effs0 ++ [FsEff.fetchSums (shaSumsUrl remote version)]
      match findExpected w.sums asset with
      | none =>
        (Except.error (("No checksum found for asset ") ++ asset ++ (" in SHA256SUMS")), effs1)
      | some expected =>
        if w.artifactDigest ≠ expected then
          (Except.error (("SHA256 mismatch: expected ") ++ expected ++ (" got ") ++
            w.artifactDigest), effs1)
        else
          if getEnvD w.trustTfenv ("") = "yes" || w.useGpgvFile then
            let effs2 := effs1 ++ [FsEff.fetchSig (sigUrl remote version)]
            if w.sigOk then installFinish version w.zipEntries effs2
            else (Except.error ("gpg verification failed"), effs2)
          else installFinish version w.zipEntries effs1
    else installFinish version w.zipEntries effs0

/-! ## Derived descriptions and concrete inputs used by the theorems -/

/-- `n` rounds of the padding loop's append: `s` followed by `n` copies
of `.0`. -/
def appendZeros : String → Nat → String
  | s, 0 => s
  | s, n + 1 => appendZeros (s ++ (".0")) n

/-- Written from the spec side for the amended first-occurrence claim: the
first `required_version` line of the last matching file in enumeration
order. -/
def lastRvLineSpec (files : List (String × String)) : Option String :=
  ((files.filter (fun f => matchTf f.fst)).filterMap (fun f => firstRvLine f.snd)).getLast?

/-- A world with nothing set: no environment variables, no files, no
installed versions, an empty catalog, the modelled regex engine and a
small padding fuel. -/
def wBase : World :=
  { env := { product := none, remote := none, autoInstall := none, versionVar := none },
    cwdFiles := [], versionsDirs := none, catalogHrefs := [], localVersionFile := none,
    homeVersionFile := none, pinnedVersion := none, compile := regexModel, padFuel := 5 }

/-- Two installed versions and no other state. -/
def w2 : World := { wBase with versionsDirs := some [("1.0.0"), ("1.2.3")] }

/-- A project declaring `required_version = "~> 1.2"` and a remote catalog
offering 1.2.9, 1.3.0 and 2.0.0, with nothing installed locally. -/
def w5 : World := { wBase with
  cwdFiles := [(("main.tf"), ("required_version = \"~> 1.2\"\n"))],
  catalogHrefs := [("/terraform/1.2.9/"), ("/terraform/1.3.0/"), ("/terraform/2.0.0/")] }

/-- A project declaring `required_version = "!= 1.3.0"`. -/
def w8 : World := { wBase with
  cwdFiles := [(("main.tf"), ("required_version = \"!= 1.3.0\"\n"))] }

/-- A declaration file carrying a `~> 1.2` requirement. -/
def fileA : String × String := (("a.tf"), ("required_version = \"~> 1.2\"\n"))

/-- A declaration file carrying a `> 9` requirement. -/
def fileB : String × String := (("b.tf"), ("required_version = \"> 9\"\n"))

/-- A declaration file whose requirement carries a prerelease suffix. -/
def fileRc : String × String := (("main.tf"), ("required_version = \">= 1.3.0-rc1\"\n"))

/-- An install world with default environment on a linux/amd64 host: the
asset digest computes to `aaaa` and the archive holds one binary. -/
def iwBase : InstallWorld :=
  { product := none, remote := none, trustTfenv := none, useGpgvFile := false,
    osConst := ("linux"), archConst := ("x86_64"), artifactDigest := ("aaaa"),
    sums := (""), sigOk := false, zipEntries := [("terraform")] }

/-- The asset name computed for terraform 1.5.0 on the linux/amd64 host. -/
def asset150 : String := assetName ("terraform") ("1.5.0") ("linux") ("x86_64")

/-- A digest list whose entry for the asset publishes `bbbb`, preceded by a
line for a different file that merely contains the asset name and carries
the digest the artifact actually hashes to. -/
def iw1 : InstallWorld := { iwBase with
  sums := ("aaaa  xterraform_1.5.0_linux_amd64.zip\nbbbb  terraform_1.5.0_linux_amd64.zip\n") }

/-- A digest list with no line whose filename field equals the asset name,
only a line containing it as a proper substring. -/
def iw6 : InstallWorld := { iwBase with
  sums := ("aaaa  xterraform_1.5.0_linux_amd64.zip\n") }

/-- A well-formed digest list publishing `bbbb` for the asset, while the
artifact hashes to `aaaa`. -/
def iwMismatch : InstallWorld := { iwBase with
  sums := ("bbbb  terraform_1.5.0_linux_amd64.zip\n") }

/-- A digest list with no line mentioning the asset at all. -/
def iwNone : InstallWorld := { iwBase with
  sums := ("cccc  otherfile.zip\n") }

/-! ## Order properties of the semver comparison -/

theorem charToNat_inj {a b : Char} (h : a.toNat = b.toNat) : a = b :=
  Char.ext (UInt32.ext h)

theorem lexLt_irrefl : ∀ l : List Char, lexLt l l = false
  | [] => rfl
  | a :: as => by simp [lexLt, lexLt_irrefl as]

theorem lexLt_trans (x : List Char) :
    ∀ y z, lexLt x y = true → lexLt y z = true → lexLt x z = true := by
  induction x with
  | nil =>
    intro y z h1 h2
    cases y with
    | nil => simp [lexLt] at h1
    | cons b bs =>
      cases z with
      | nil => simp [lexLt] at h2
      | cons c cs => simp [lexLt]
  | cons a as ih =>
    intro y z h1 h2
    cases y with
    | nil => simp [lexLt] at h1
    | cons b bs =>
      cases z with
      | nil => simp [lexLt] at h2
      | cons c cs =>
        simp only [lexLt, beq_iff_eq, decide_eq_true_eq] at h1 h2 ⊢
        by_cases hab : a = b
        · subst hab
          simp only [if_pos rfl] at h1
          by_cases hbc : a = c
          · subst hbc
            simp only [if_pos rfl] at h2 ⊢
            exact ih bs cs h1 h2
          · simp only [if_neg hbc] at h2 ⊢
            exact h2
        · simp only [if_neg hab, decide_eq_true_eq] at h1
          by_cases hbc : b = c
          · subst hbc
            simp only [if_neg hab, decide_eq_true_eq]
            exact h1
          · simp only [if_neg hbc, decide_eq_true_eq] at h2
            have hlt : a.toNat < c.toNat := Nat.lt_trans h1 h2
            have hac : a ≠ c := by
              intro h
              subst h
              omega
            simp only [if_neg hac, decide_eq_true_eq]
            exact hlt

theorem lexLt_conn (x : List Char) :
    ∀ y, x ≠ y → lexLt x y = true ∨ lexLt y x = true := by
  induction x with
  | nil =>
    intro y hne
    cases y with
    | nil => exact absurd rfl hne
    | cons b bs => left; simp [lexLt]
  | cons a as ih =>
    intro y hne
    cases y with
    | nil => right; simp [lexLt]
    | cons b bs =>
      by_cases hab : a = b
      · subst hab
        have hne2 : as ≠ bs := by
          intro h
          exact hne (by rw [h])
        rcases ih bs hne2 with h | h
        · left; simp [lexLt, h]
        · right; simp [lexLt, h]
      · rcases Nat.lt_trichotomy a.toNat b.toNat with h | h | h
        · left; simp [lexLt, hab, h]
        · exact absurd (charToNat_inj h) hab
        · right
          have hba : b ≠ a := fun e => hab e.symm
          simp [lexLt, hba, h]

theorem lexStep_refl (a : Nat) (r : Bool) (h : r = true) : lexStep a a r = true := by
  simp [lexStep, h]

theorem lexStep_irrefl (a : Nat) (r : Bool) (h : r = false) : lexStep a a r = false := by
  simp [lexStep, h]

theorem lexStep_total (a b : Nat) (r s : Bool) (h : (r || s) = true) :
    (lexStep a b r || lexStep b a s) = true := by
  by_cases e : a = b
  · subst e; simpa [lexStep] using h
  · rcases Nat.lt_trichotomy a b with hl | he | hg
    · simp [lexStep, e, hl]
    · exact absurd he e
    · have hba : b ≠ a := fun x => e x.symm
      simp [lexStep, e, hba, hg]

theorem lexStep_conn (a b : Nat) (r s : Bool) (h : a = b → (r = true ∨ s = true)) :
    lexStep a b r = true ∨ lexStep b a s = true := by
  by_cases e : a = b
  · subst e
    rcases h rfl with hr | hs
    · left; simp [lexStep, hr]
    · right; simp [lexStep, hs]
  · rcases Nat.lt_trichotomy a b with hl | he | hg
    · left; simp [lexStep, e, hl]
    · exact absurd he e
    · right
      have hba : b ≠ a := fun x => e x.symm
      simp [lexStep, hba, hg]

theorem lexStep_trans (a b c : Nat) (r1 r2 r3 : Bool)
    (hr : r1 = true → r2 = true → r3 = true)
    (h1 : lexStep a b r1 = true) (h2 : lexStep b c r2 = true) : lexStep a c r3 = true := by
  unfold lexStep at h1 h2 ⊢
  by_cases e1 : a = b
  · subst e1
    simp only [if_pos rfl] at h1
    by_cases e2 : a = c
    · subst e2
      simp only [if_pos rfl] at h2 ⊢
      exact hr h1 h2
    · simp only [if_neg e2] at h2 ⊢
      exact h2
  · simp only [if_neg e1, decide_eq_true_eq] at h1
    by_cases e2 : b = c
    · subst e2
      simp only [if_neg e1, decide_eq_true_eq]
      exact h1
    · simp only [if_neg e2, decide_eq_true_eq] at h2
      have hlt : a < c := Nat.lt_trans h1 h2
      have hac : a ≠ c := by omega
      simp only [if_neg hac, decide_eq_true_eq]
      exact hlt

theorem numLt_irrefl (x : List Char) : numLt x x = false :=
  lexStep_irrefl _ _ (lexLt_irrefl x)

theorem numLt_trans (x y z : List Char) (h1 : numLt x y = true) (h2 : numLt y z = true) :
    numLt x z = true :=
  lexStep_trans _ _ _ _ _ _ (fun p1 p2 => lexLt_trans x y z p1 p2) h1 h2

theorem numLt_conn (x y : List Char) (hne : x ≠ y) : numLt x y = true ∨ numLt y x = true :=
  lexStep_conn _ _ _ _ (fun _ => lexLt_conn x y hne)

theorem identLt_irrefl (x : String) : identLt x x = false := by
  unfold identLt
  cases hx : identIsNum x.data <;> simp [numLt_irrefl, lexLt_irrefl]

theorem identLt_trans (x y z : String) (h1 : identLt x y = true) (h2 : identLt y z = true) :
    identLt x z = true := by
  unfold identLt at h1 h2 ⊢
  cases hx : identIsNum x.data <;> cases hy : identIsNum y.data <;>
    cases hz : identIsNum z.data <;> simp [hx, hy, hz] at h1 h2 ⊢
  · exact lexLt_trans _ _ _ h1 h2
  · exact numLt_trans _ _ _ h1 h2

theorem strData_inj {x y : String} (h : x.data = y.data) : x = y := by
  cases x
  cases y
  exact congrArg String.mk h

theorem identLt_conn (x y : String) (hne : x ≠ y) : identLt x y = true ∨ identLt y x = true := by
  have hd : x.data ≠ y.data := fun h => hne (strData_inj h)
  unfold identLt
  cases hx : identIsNum x.data <;> cases hy : identIsNum y.data <;> simp [hx, hy]
  · exact lexLt_conn _ _ hd
  · exact numLt_conn _ _ hd

theorem identLt_asymm (x y : String) (h : identLt x y = true) : identLt y x = false := by
  cases hyx : identLt y x
  · rfl
  · have := identLt_trans x y x h hyx
    rw [identLt_irrefl x] at this
    exact absurd this (by simp)

theorem preLe_refl : ∀ l : List String, preLe l l = true
  | [] => rfl
  | a :: as => by simp [preLe, preLe_refl as]

theorem preLe_total (x : List String) : ∀ y, (preLe x y || preLe y x) = true := by
  induction x with
  | nil => intro y; simp [preLe]
  | cons a as ih =>
    intro y
    cases y with
    | nil => simp [preLe]
    | cons b bs =>
      simp only [preLe, beq_iff_eq]
      by_cases hab : a = b
      · subst hab
        simpa [if_pos rfl] using ih bs
      · have hba : b ≠ a := fun e => hab e.symm
        simp only [if_neg hab, if_neg hba]
        rcases identLt_conn a b hab with h | h
        · simp [h]
        · simp [h]

theorem preLe_trans (x : List String) :
    ∀ y z, preLe x y = true → preLe y z = true → preLe x z = true := by
  induction x with
  | nil => intro y z h1 h2; simp [preLe]
  | cons a as ih =>
    intro y z h1 h2
    cases y with
    | nil => simp [preLe] at h1
    | cons b bs =>
      cases z with
      | nil => simp [preLe] at h2
      | cons c cs =>
        simp only [preLe, beq_iff_eq] at h1 h2 ⊢
        by_cases hab : a = b
        · subst hab
          simp only [if_pos rfl] at h1
          by_cases hbc : a = c
          · subst hbc
            simp only [if_pos rfl] at h2 ⊢
            exact ih bs cs h1 h2
          · simp only [if_neg hbc] at h2 ⊢
            exact h2
        · simp only [if_neg hab] at h1
          by_cases hbc : b = c
          · subst hbc
            simp only [if_neg hab]
            exact h1
          · simp only [if_neg hbc] at h2
            have hac : a ≠ c := by
              intro he
              subst he
              have := identLt_asymm a b h1
              rw [this] at h2
              exact absurd h2 (by simp)
            simp only [if_neg hac]
            exact identLt_trans a b c h1 h2

theorem preOrdLe_refl (x : List String) : preOrdLe x x = true := by
  cases x with
  | nil => rfl
  | cons a as => simpa [preOrdLe] using preLe_refl (a :: as)

theorem preOrdLe_total (x y : List String) : (preOrdLe x y || preOrdLe y x) = true := by
  cases x with
  | nil =>
    cases y with
    | nil => rfl
    | cons b bs => simp [preOrdLe]
  | cons a as =>
    cases y with
    | nil => simp [preOrdLe]
    | cons b bs => simpa [preOrdLe] using preLe_total (a :: as) (b :: bs)

theorem preOrdLe_trans (x y z : List String) (h1 : preOrdLe x y = true)
    (h2 : preOrdLe y z = true) : preOrdLe x z = true := by
  cases x with
  | nil =>
    cases y with
    | nil =>
      cases z with
      | nil => rfl
      | cons c cs => exact h2
    | cons b bs => simp [preOrdLe] at h1
  | cons a as =>
    cases z with
    | nil => simp [preOrdLe]
    | cons c cs =>
      cases y with
      | nil => simp [preOrdLe] at h2
      | cons b bs =>
        simp only [preOrdLe] at h1 h2 ⊢
        exact preLe_trans (a :: as) (b :: bs) (c :: cs) h1 h2

theorem vle_refl (x : Version) : vle x x = true :=
  lexStep_refl _ _ (lexStep_refl _ _ (lexStep_refl _ _ (preOrdLe_refl x.pre)))

theorem vle_total (x y : Version) : (vle x y || vle y x) = true :=
  lexStep_total _ _ _ _ (lexStep_total _ _ _ _ (lexStep_total _ _ _ _
    (preOrdLe_total x.pre y.pre)))

theorem vle_trans (x y z : Version) (h1 : vle x y = true) (h2 : vle y z = true) :
    vle x z = true :=
  lexStep_trans _ _ _ _ _ _
    (fun p1 p2 => lexStep_trans _ _ _ _ _ _
      (fun q1 q2 => lexStep_trans _ _ _ _ _ _
        (fun s1 s2 => preOrdLe_trans x.pre y.pre z.pre s1 s2) q1 q2) p1 p2) h1 h2

/-! ## Sorted lists: the last element of a sorted list is a maximum -/

theorem insertLe_perm {α : Type} (le : α → α → Bool) (a : α) :
    ∀ l, (insertLe le a l).Perm (a :: l) := by
  intro l
  induction l with
  | nil => exact List.Perm.refl _
  | cons b bs ih =>
    unfold insertLe
    by_cases h : le a b
    · simp [h]
    · simp only [h, if_false]
      exact (ih.cons b).trans (List.Perm.swap a b bs)

theorem insertLe_pairwise {α : Type} {le : α → α → Bool}
    (htrans : ∀ a b c, le a b = true → le b c = true → le a c = true)
    (htotal : ∀ a b, (le a b || le b a) = true) (a : α) :
    ∀ l, l.Pairwise (fun x y => le x y = true) →
      (insertLe le a l).Pairwise (fun x y => le x y = true) := by
  intro l
  induction l with
  | nil => intro _; simp [insertLe]
  | cons b bs ih =>
    intro hpw
    rcases List.pairwise_cons.mp hpw with ⟨hb, hbs⟩
    unfold insertLe
    by_cases h : le a b
    · simp only [h, if_true]
      refine List.pairwise_cons.mpr ⟨?_, hpw⟩
      intro y hy
      rcases List.mem_cons.mp hy with hya | hymem
      · rw [hya]; exact h
      · exact htrans a b y h (hb y hymem)
    · simp only [h, if_false]
      refine List.pairwise_cons.mpr ⟨?_, ih hbs⟩
      intro y hy
      have hmem := (insertLe_perm le a bs).mem_iff.mp hy
      rcases List.mem_cons.mp hmem with hya | hymem
      · rw [hya]
        have ht := htotal a b
        rcases Bool.or_eq_true_iff.mp ht with h1 | h1
        · exact absurd h1 h
        · exact h1
      · exact hb y hymem

theorem isortLe_perm {α : Type} (le : α → α → Bool) : ∀ l, (isortLe le l).Perm l := by
  intro l
  induction l with
  | nil => exact List.Perm.refl _
  | cons x xs ih => exact (insertLe_perm le x (isortLe le xs)).trans (ih.cons x)

theorem isortLe_pairwise {α : Type} {le : α → α → Bool}
    (htrans : ∀ a b c, le a b = true → le b c = true → le a c = true)
    (htotal : ∀ a b, (le a b || le b a) = true) :
    ∀ l, (isortLe le l).Pairwise (fun x y => le x y = true) := by
  intro l
  induction l with
  | nil => simp [isortLe]
  | cons x xs ih => exact insertLe_pairwise htrans htotal x _ ih

theorem mem_of_getLast_opt {α : Type} (l : List α) : ∀ (m : α), l.getLast? = some m → m ∈ l := by
  induction l with
  | nil => intro m h; simp at h
  | cons a t ih =>
    intro m h
    cases t with
    | nil =>
      rw [List.getLast?_singleton] at h
      rw [Option.some.inj h]
      exact List.mem_singleton_self m
    | cons b t2 =>
      rw [List.getLast?_cons_cons] at h
      exact List.mem_cons_of_mem a (ih m h)

theorem pairwise_last_le {α : Type} {le : α → α → Bool} (hrefl : ∀ a, le a a = true)
    (l : List α) : ∀ (m : α), l.Pairwise (fun a b => le a b = true) → l.getLast? = some m →
      ∀ v ∈ l, le v m = true := by
  induction l with
  | nil => intro m _ h; simp at h
  | cons a t ih =>
    intro m hpw hlast v hv
    rcases List.pairwise_cons.mp hpw with ⟨hhead, htail⟩
    cases t with
    | nil =>
      rw [List.getLast?_singleton] at hlast
      have hm : a = m := Option.some.inj hlast
      have hva : v = a := List.mem_singleton.mp hv
      rw [hva, ← hm]
      exact hrefl a
    | cons b t2 =>
      rw [List.getLast?_cons_cons] at hlast
      have hmem : m ∈ b :: t2 := mem_of_getLast_opt _ m hlast
      rcases List.mem_cons.mp hv with hva | hvt
      · rw [hva]
        exact hhead m hmem
      · exact ih m htail hlast v hvt

/-! ## The resolver claims -/

theorem resolveStep3_eq (w : World) : resolveStep3 w = resolveRequested w (candidateSpecHome w) := by
  unfold resolveStep3 candidateSpecHome
  cases w.homeVersionFile with
  | none => rfl
  | some c =>
    by_cases h : strTrim c = ""
    · simp [h]
    · simp [h]

theorem resolveStep2_eq (w : World) : resolveStep2 w = resolveRequested w (candidateSpecFile w) := by
  unfold resolveStep2 candidateSpecFile
  cases w.localVersionFile with
  | none => exact resolveStep3_eq w
  | some c =>
    by_cases h : strTrim c = ""
    · simp [h, resolveStep3_eq w]
    · simp [h]

/-- Claim C3: `resolve_version_name` selects its candidate string in
exactly the order override variable (if set and non-empty), trimmed
per-directory `.terraform-version` content (if non-empty), trimmed
user-home `.terraform-version` content (if present and non-empty), and
finally the literal `latest`; the whole resolution equals resolving that
candidate, so it never defaults to any other value. -/
theorem c3_candidate_order (w : World) :
    resolveVersionName w = resolveRequested w (candidateSpec w) := by
  unfold resolveVersionName candidateSpec
  cases w.env.versionVar with
  | none => exact resolveStep2_eq w
  | some v =>
    by_cases hv : v = ""
    · simp [hv, resolveStep2_eq w]
    · simp [hv]

/-- Claim C4: the digest list and its detached signature are fetched from
URLs that do not depend on the configured remote at all, agree for any two
mirror settings, depend only on the version, and always extend the fixed
canonical trust root. -/
theorem c4_trust_root_fixed (r1 r2 v : String) :
    shaSumsUrl r1 v = shaSumsUrl r2 v ∧ sigUrl r1 v = sigUrl r2 v ∧
      (∃ t, shaSumsUrl r1 v = trustRoot ++ t) ∧ (∃ t, sigUrl r1 v = trustRoot ++ t) := by
  refine ⟨rfl, rfl, ⟨v ++ ("/terraform_") ++ v ++ ("_SHA256SUMS"), ?_⟩,
    ⟨v ++ ("/terraform_") ++ v ++ ("_SHA256SUMS.sig"), ?_⟩⟩ <;>
    simp [shaSumsUrl, sigUrl, trustRoot, String.append_assoc]

/-- Claim C10: the pin file `<config_dir>/version` written by the `use`
subcommand is never read during version resolution: writing any pin, or
replacing the pin file's state by anything else, leaves the result of
`resolve_version_name` unchanged. -/
theorem c10_pin_never_read (w : World) (v : String) (p : Option String) :
    resolveVersionName (setDefaultVersion w v) = resolveVersionName w ∧
      resolveVersionName { w with pinnedVersion := p } = resolveVersionName w :=
  ⟨rfl, rfl⟩

/-- Claim C2: whenever some installed version matches the active `latest`
pattern, resolution returns the maximum matching installed version and
performs no network fetch: the remote catalog is never queried. -/
theorem c2_local_before_remote (w : World) (req d : String) (dirs : List String)
    (hreq : strStarts req ("latest") = true)
    (hna : req ≠ ("latest-allowed"))
    (hdirs : w.versionsDirs = some dirs)
    (hd : d ∈ dirs)
    (hpat : w.compile (patternOf req) d = true)
    (hparse : (parseVersion d).isSome = true) :
    ∃ m : Version,
      m ∈ localCandidates dirs (w.compile (patternOf req)) ∧
      (∀ v ∈ localCandidates dirs (w.compile (patternOf req)), vle v m = true) ∧
      resolveRequested w req = (Except.ok (verToString m), ([] : List Eff)) := by
  obtain ⟨t, ht⟩ := List.isPrefixOf_iff_prefix.mp hreq
  have hdata : req.data = 'l' :: ('a' :: 't' :: 'e' :: 's' :: 't' :: t) := by
    rw [← ht]
    rfl
  have htrim : trimLeadingVs req = req := by
    unfold trimLeadingVs
    rw [hdata]
    rw [List.dropWhile_cons_of_neg (by decide)]
    rw [← hdata]
  have hne_min : req ≠ ("min-required") := by
    intro h
    rw [h] at hreq
    exact absurd hreq (by decide)
  have hres : resolveRequested w req = resolveLatest w req := by
    unfold resolveRequested
    rw [htrim]
    simp [hne_min, hna, hreq]
  obtain ⟨v0, hv0⟩ := Option.isSome_iff_exists.mp hparse
  have hdmem : d ∈ dirs.filter (w.compile (patternOf req)) := List.mem_filter.mpr ⟨hd, hpat⟩
  have hv0mem : v0 ∈ localCandidates dirs (w.compile (patternOf req)) :=
    List.mem_filterMap.mpr ⟨d, hdmem, hv0⟩
  have hcand_ne : localCandidates dirs (w.compile (patternOf req)) ≠ [] :=
    List.ne_nil_of_mem hv0mem
  have hperm := isortLe_perm vle (localCandidates dirs (w.compile (patternOf req)))
  have hsorted_ne : isortLe vle (localCandidates dirs (w.compile (patternOf req))) ≠ [] := by
    intro h
    rw [h] at hperm
    exact hcand_ne (List.Perm.nil_eq hperm).symm
  cases hrev : (isortLe vle (localCandidates dirs (w.compile (patternOf req)))).reverse with
  | nil => exact absurd (List.reverse_eq_nil_iff.mp hrev) hsorted_ne
  | cons m rest =>
    have hlast :
        (isortLe vle (localCandidates dirs (w.compile (patternOf req)))).getLast? = some m := by
      rw [← List.head?_reverse, hrev]
      rfl
    have hmem_sorted : m ∈ isortLe vle (localCandidates dirs (w.compile (patternOf req))) :=
      mem_of_getLast_opt _ m hlast
    have hmem_cand : m ∈ localCandidates dirs (w.compile (patternOf req)) :=
      (hperm.mem_iff).mp hmem_sorted
    have hpw := isortLe_pairwise vle_trans vle_total
      (localCandidates dirs (w.compile (patternOf req)))
    have hmax : ∀ v ∈ localCandidates dirs (w.compile (patternOf req)), vle v m = true := by
      intro v hv
      exact pairwise_last_le vle_refl _ m hpw hlast v ((hperm.mem_iff).mpr hv)
    have hllm : latestLocalMatching w.versionsDirs (w.compile (patternOf req)) =
        some (verToString m) := by
      rw [hdirs]
      show (((isortLe vle (localCandidates dirs (w.compile (patternOf req)))).reverse).head?).map
          verToString = some (verToString m)
      rw [hrev]
      rfl
    have hresolveLatest : resolveLatest w req = (Except.ok (verToString m), ([] : List Eff)) := by
      unfold resolveLatest
      simp only [hllm]
    refine ⟨m, hmem_cand, hmax, ?_⟩
    rw [hres]
    exact hresolveLatest

/-- Witness for C2 at a concrete world: versions 1.0.0 and 1.2.3 are
installed, the default pattern matches 1.2.3, and resolving `latest`
returns 1.2.3 with no fetch. -/
theorem c2_witness :
    ∃ m : Version,
      m ∈ localCandidates [("1.0.0"), ("1.2.3")] (w2.compile (patternOf ("latest"))) ∧
      (∀ v ∈ localCandidates [("1.0.0"), ("1.2.3")] (w2.compile (patternOf ("latest"))),
        vle v m = true) ∧
      resolveRequested w2 ("latest") = (Except.ok (verToString m), ([] : List Eff)) :=
  c2_local_before_remote w2 ("latest") ("1.2.3") [("1.0.0"), ("1.2.3")]
    (by decide) (by decide) rfl (by decide) (by decide) (by decide)

/-! ## The padding loop of min_required -/

theorem splitOnPred_ne_nil (p : Char → Bool) : ∀ cs, splitOnPred p cs ≠ [] := by
  intro cs
  cases cs with
  | nil => simp [splitOnPred]
  | cons c cs =>
    unfold splitOnPred
    cases h : splitOnPred p cs with
    | nil => simp
    | cons hd tl =>
      by_cases hp : p c
      · simp [hp]
      · simp [hp]

theorem splitOnPred_length (p : Char → Bool) :
    ∀ cs : List Char, (splitOnPred p cs).length = cs.countP p + 1 := by
  intro cs
  induction cs with
  | nil => rfl
  | cons c cs ih =>
    unfold splitOnPred
    cases h : splitOnPred p cs with
    | nil => exact absurd h (splitOnPred_ne_nil p cs)
    | cons hd tl =>
      rw [h] at ih
      by_cases hp : p c
      · show ((if p c = true then [] :: hd :: tl else (c :: hd) :: tl)).length =
          List.countP p (c :: cs) + 1
        rw [if_pos hp]
        simp only [List.length_cons, List.countP_cons, if_pos hp]
        simp only [List.length_cons] at ih
        omega
      · show ((if p c = true then [] :: hd :: tl else (c :: hd) :: tl)).length =
          List.countP p (c :: cs) + 1
        rw [if_neg hp]
        simp only [List.length_cons, List.countP_cons, if_neg hp]
        simp only [List.length_cons] at ih
        omega

theorem numTripleL_of_count (cs : List Char)
    (h : cs.countP (fun c => c == '.') ≠ 2) : numTripleL cs = false := by
  have hl : (splitOnCharL '.' cs).length = cs.countP (fun c => c == '.') + 1 :=
    splitOnPred_length _ cs
  unfold numTripleL
  cases hsp : splitOnCharL '.' cs with
  | nil => rfl
  | cons a l1 =>
    cases l1 with
    | nil => rfl
    | cons b l2 =>
      cases l2 with
      | nil => rfl
      | cons c3 l3 =>
        cases l3 with
        | nil =>
          rw [hsp] at hl
          simp only [List.length_cons, List.length_nil] at hl
          exact absurd (by omega) h
        | cons d l4 => rfl

theorem appendZeros_count (s : String) :
    ∀ n, (appendZeros s n).data.countP (fun c => c == '.') =
      s.data.countP (fun c => c == '.') + n := by
  intro n
  induction n generalizing s with
  | zero => rfl
  | succ k ih =>
    show (appendZeros (s ++ (".0")) k).data.countP (fun c => c == '.') = _
    rw [ih (s ++ (".0")), String.data_append, List.countP_append]
    have hz : ((".0") : String).data.countP (fun c => c == '.') = 1 := by decide
    rw [hz]
    omega

theorem rcToken_never_triple : ∀ n, numTripleS (appendZeros ("1.3.0-rc1") n) = false := by
  intro n
  cases n with
  | zero => decide
  | succ k =>
    show numTripleL (appendZeros ("1.3.0-rc1") (k + 1)).data = false
    apply numTripleL_of_count
    have hc := appendZeros_count ("1.3.0-rc1") (k + 1)
    have hbase : (("1.3.0-rc1") : String).data.countP (fun c => c == '.') = 2 := by decide
    rw [hbase] at hc
    omega

theorem padLoop_none (s : String) (h : ∀ n, numTripleS (appendZeros s n) = false) :
    ∀ fuel, padLoop fuel s = none := by
  intro fuel
  induction fuel generalizing s with
  | zero =>
    have h0 := h 0
    simp only [appendZeros] at h0
    simp [padLoop, h0]
  | succ k ih =>
    have h0 := h 0
    simp only [appendZeros] at h0
    simp only [padLoop, h0, if_false]
    exact ih (s ++ (".0")) (fun n => h (n + 1))

/-- Claim C7 (evaluation at the failing input): on a declaration carrying
the prerelease token `1.3.0-rc1`, the capture regex extracts the token
with its suffix, no number of `.0` appends ever makes the padded string
match `^[0-9]+\.[0-9]+\.[0-9]+$`, and therefore the padding loop of
`min_required` never exits: at every fuel bound the loop is still
running, so the source's unbounded `while` diverges. -/
theorem c7_padding_never_terminates :
    reVerCapture (">= 1.3.0-rc1") = some ((">= "), ("1.3.0"), some ("-rc1")) ∧
    (∀ n, numTripleS (appendZeros ("1.3.0-rc1") n) = false) ∧
    (∀ fuel, padLoop fuel ("1.3.0-rc1") = none) ∧
    (∀ fuel, minRequired fuel [fileRc] = none) := by
  refine ⟨by decide, rcToken_never_triple, padLoop_none _ rcToken_never_triple, ?_⟩
  intro fuel
  show padLoop fuel ("1.3.0-rc1") = none
  exact padLoop_none _ rcToken_never_triple fuel

/-! ## Which required_version occurrence the derived queries use -/

theorem getLast_opt_cons_getD {α : Type} (l : α) (xs : List α) (acc : α) :
    ((l :: xs).getLast?).getD acc = (xs.getLast?).getD l := by
  cases xs with
  | nil => rfl
  | cons x xs2 =>
    rw [List.getLast?_cons_cons]
    cases h : (x :: xs2).getLast? with
    | none => exact absurd (List.getLast?_eq_none_iff.mp h) (by simp)
    | some y => rfl

theorem specLineOf_foldl (files : List (String × String)) :
    ∀ acc : String,
      files.foldl
        (fun acc f =>
          if matchTf f.fst then
            match firstRvLine f.snd with
            | some l => l
            | none => acc
          else acc) acc = (lastRvLineSpec files).getD acc := by
  induction files with
  | nil => intro acc; rfl
  | cons f fs ih =>
    intro acc
    simp only [List.foldl_cons, ih]
    unfold lastRvLineSpec
    by_cases hm : matchTf f.fst
    · cases hg : firstRvLine f.snd with
      | none => simp [hm, hg, List.filter_cons, List.filterMap_cons]
      | some l =>
        simp only [hm, hg, if_true, List.filter_cons, List.filterMap_cons]
        exact (getLast_opt_cons_getD l _ acc).symm
    · simp [hm, List.filter_cons]

theorem specLineOf_eq (files : List (String × String)) :
    specLineOf files = (lastRvLineSpec files).getD ("") :=
  specLineOf_foldl files ("")

/-- Claim C9 counterexample: with the two declaration files a.tf
(`~> 1.2`) and b.tf (`> 9`) the first occurrence across all files is the
`~> 1.2` specifier of a.tf, yet both derived queries return something
else once the later file is present: `min_required` moves from 1.2.0 to
9.0.0 and `latest_allowed_mapping` from `latest:^1\.` to `latest`, so
occurrences after the first do affect the result. -/
theorem c9_counterexample :
    reLineFirstSpec (combinedOf [fileA]) = some ("~> 1.2") ∧
    reLineFirstSpec (combinedOf [fileA, fileB]) = some ("> 9") ∧
    minRequired 3 [fileA] = some ("1.2.0") ∧
    minRequired 3 [fileA, fileB] = some ("9.0.0") ∧
    latestAllowedToRequested [fileA] = some ("latest:^1\\.") ∧
    latestAllowedToRequested [fileA, fileB] = some ("latest") :=
  ⟨by decide, by decide, by decide, by decide, by decide, by decide⟩

/-- Claim C9 amended: occurrences after the first can decide both derived
queries.  `latest_allowed_mapping` uses the first `required_version` line
of the last matching file in enumeration order (its inner loop breaks per
file but the outer loop keeps overwriting), proved in general;
`min_required` takes the capture of the first line-regex match over the
concatenation, whose greedy hash-free prefix locks onto the last
reachable occurrence, shown at the two-file input, where both queries
agree with running on the later file alone. -/
theorem c9_last_occurrence_wins :
    (∀ files : List (String × String), specLineOf files = (lastRvLineSpec files).getD ("")) ∧
    minRequired 3 [fileA, fileB] = minRequired 3 [fileB] ∧
    latestAllowedToRequested [fileA, fileB] = latestAllowedToRequested [fileB] :=
  ⟨specLineOf_eq, by decide, by decide⟩

/-- Claim C5 counterexample: `required_version = "~> 1.2"` does map to
`latest` filtered by `^1\.`, but resolving that constraint against the
catalog 1.2.9, 1.3.0, 2.0.0 returns 1.3.0, not 1.2.9: the prefix regex
`^1\.` also matches 1.3.0, which is the larger matching version. -/
theorem c5_counterexample :
    latestAllowedToRequested w5.cwdFiles = some ("latest:^1\\.") ∧
    (resolveRequested w5 ("latest-allowed")).fst = Except.ok ("1.3.0") ∧
    (("1.3.0") : String) ≠ ("1.2.9") :=
  ⟨by decide, by decide, by decide⟩

/-- Claim C5 amended: `required_version = "~> 1.2"` maps via
`latest_allowed_to_requested` to `latest` filtered by the regex prefix
`^1\.` (rightmost component dropped, escaped and anchored), and resolving
that constraint against the catalog 1.2.9, 1.3.0, 2.0.0 returns 1.3.0,
the maximum version matching the prefix, after one catalog fetch. -/
theorem c5_tilde_mapping :
    latestAllowedToRequested w5.cwdFiles = some ("latest:^1\\.") ∧
    regexModel ("^1\\.") ("1.2.9") = true ∧
    regexModel ("^1\\.") ("1.3.0") = true ∧
    regexModel ("^1\\.") ("2.0.0") = false ∧
    resolveRequested w5 ("latest-allowed") = (Except.ok ("1.3.0"), [Eff.fetchCatalog]) :=
  ⟨by decide, by decide, by decide, by decide, by decide⟩

/-- Claim C8: when the first `required_version` specifier found carries
the leading operator `!=`, `min_required` returns nothing, and resolving
the request `min-required` fails with a resolution error instead of
returning a version. -/
theorem c8_not_equal_gives_none (w : World) (s q num : String) (post : Option String)
    (h1 : reLineFirstSpec (combinedOf w.cwdFiles) = some s)
    (h2 : reVerCapture s = some (q, num, post))
    (h3 : strStarts (strTrimLeft q) ("!=") = true) :
    minRequired w.padFuel w.cwdFiles = none ∧
    resolveRequested w ("min-required") =
      (Except.error ("min-required could not be determined"), ([] : List Eff)) := by
  have hm : minRequired w.padFuel w.cwdFiles = none := by
    unfold minRequired
    rw [h1]
    show (match reVerCapture s with
      | none => none
      | some (qual, num, post) =>
        if strStarts (strTrimLeft qual) ("!=") = true then none
        else padLoop w.padFuel (num ++ post.getD (""))) = none
    rw [h2]
    simp [h3]
  refine ⟨hm, ?_⟩
  unfold resolveRequested
  have ht : trimLeadingVs ("min-required") = ("min-required") := by decide
  rw [ht]
  simp [hm]

/-- Witness for C8 at a concrete world: a working directory whose only
declaration is `required_version = "!= 1.3.0"`. -/
theorem c8_witness :
    minRequired w8.padFuel w8.cwdFiles = none ∧
    resolveRequested w8 ("min-required") =
      (Except.error ("min-required could not be determined"), ([] : List Eff)) :=
  c8_not_equal_gives_none w8 ("!= 1.3.0") ("!= ") ("1.3.0") none
    (by decide) (by decide) (by decide)

/-! ## The trust-chain claims -/

/-- Claim C1 counterexample: the digest list publishes `bbbb` for the
asset (the line whose filename field equals the asset name exactly), the
artifact's computed digest `aaaa` differs from it, yet `install_version`
succeeds and creates the version directory: the substring-based line
selection picks the digest of a different file's line. -/
theorem c1_counterexample :
    specDigestFor iw1.sums asset150 = some ("bbbb") ∧
    iw1.artifactDigest = ("aaaa") ∧
    (("aaaa") : String) ≠ ("bbbb") ∧
    (installVersion iw1 (some ("1.5.0"))).fst = Except.ok () ∧
    FsEff.createDirAll [("versions"), ("1.5.0")] ∈ (installVersion iw1 (some ("1.5.0"))).snd :=
  ⟨by decide, by decide, by decide, by decide, by decide⟩

/-- Claim C1 amended: whenever the computed SHA-256 digest of the
artifact differs from the digest `install_version` selects from the
digest list (the first field of the first line that contains the asset
name), or no line contains the asset name, the install returns an error
having performed only fetches: no file or directory is created at all,
in particular nothing under `versions/<version>/`. -/
theorem c1_mismatch_aborts (w : InstallWorld) (version : String)
    (hv : version ≠ ("latest"))
    (hp : strToLower (getEnvD w.product ("terraform")) = ("terraform"))
    (hmis : ∀ d, findExpected w.sums (assetName ("terraform") version w.osConst w.archConst) =
      some d → w.artifactDigest ≠ d) :
    (∃ msg, (installVersion w (some version)).fst = Except.error msg) ∧
    (∀ e ∈ (installVersion w (some version)).snd,
      effPath e = none ∧ touchesVersionDir version e = false) := by
  cases hfe : findExpected w.sums (assetName ("terraform") version w.osConst w.archConst) with
  | none =>
    refine ⟨⟨("No checksum found for asset ") ++
        assetName ("terraform") version w.osConst w.archConst ++ (" in SHA256SUMS"), ?_⟩, ?_⟩
    · simp only [installVersion, Option.getD_some, hp, if_neg hv, hfe, if_true]
    · intro e he
      simp only [installVersion, Option.getD_some, hp, if_neg hv, hfe, if_true] at he
      simp only [List.cons_append, List.nil_append, List.mem_cons,
        List.not_mem_nil, or_false] at he
      rcases he with rfl | rfl
      · exact ⟨rfl, rfl⟩
      · exact ⟨rfl, rfl⟩
  | some d =>
    have hne := hmis d hfe
    refine ⟨⟨("SHA256 mismatch: expected ") ++ d ++ (" got ") ++ w.artifactDigest, ?_⟩, ?_⟩
    · simp only [installVersion, Option.getD_some, hp, if_neg hv, hfe, if_true, if_pos hne]
    · intro e he
      simp only [installVersion, Option.getD_some, hp, if_neg hv, hfe, if_true,
        if_pos hne] at he
      simp only [List.cons_append, List.nil_append, List.mem_cons,
        List.not_mem_nil, or_false] at he
      rcases he with rfl | rfl
      · exact ⟨rfl, rfl⟩
      · exact ⟨rfl, rfl⟩

/-- Witness for C1 at a concrete world: the digest list publishes `bbbb`
for the asset, the artifact hashes to `aaaa`, and the install aborts with
only fetch effects. -/
theorem c1_witness :
    (∃ msg, (installVersion iwMismatch (some ("1.5.0"))).fst = Except.error msg) ∧
    (∀ e ∈ (installVersion iwMismatch (some ("1.5.0"))).snd,
      effPath e = none ∧ touchesVersionDir ("1.5.0") e = false) :=
  c1_mismatch_aborts iwMismatch ("1.5.0") (by decide) (by decide)
    (fun d hd => by
      have hb : findExpected iwMismatch.sums
          (assetName ("terraform") ("1.5.0") iwMismatch.osConst iwMismatch.archConst) =
          some ("bbbb") := by decide
      rw [hb] at hd
      rw [← Option.some.inj hd]
      decide)

theorem findExpectedL_none (lines : List String) (asset : String)
    (h : ∀ line ∈ lines, strHasSub line asset = false) : findExpectedL lines asset = none := by
  induction lines with
  | nil => rfl
  | cons l ls ih =>
    unfold findExpectedL
    simp [h l (List.mem_cons_self l ls)]
    exact ih (fun x hx => h x (List.mem_cons_of_mem l hx))

/-- Claim C6 counterexample: a digest list whose only line merely contains
the asset name inside a longer filename: no line's filename field equals
the asset name, so the claim demands a checksum-not-found failure, yet
the code selects that line's digest and the install succeeds, creating
the version directory. -/
theorem c6_counterexample :
    (∀ line ∈ rustLines iw6.sums, ((splitWs line).getD 1 ("")) ≠ asset150) ∧
    findExpected iw6.sums asset150 = some ("aaaa") ∧
    (installVersion iw6 (some ("1.5.0"))).fst = Except.ok () ∧
    FsEff.createDirAll [("versions"), ("1.5.0")] ∈ (installVersion iw6 (some ("1.5.0"))).snd :=
  ⟨by decide, by decide, by decide, by decide⟩

/-- Claim C6 amended: the digest used for verification is taken from the
first digest-list line that contains the asset name as a substring (and
splits into at least two fields); when no line contains the asset name
the install fails with the checksum-not-found error before any state
change, and when the selected digest equals the computed one (signature
stage disabled, binary present in the archive) the install succeeds. -/
theorem c6_contains_selects_digest (w : InstallWorld) (version : String)
    (hv : version ≠ ("latest"))
    (hp : strToLower (getEnvD w.product ("terraform")) = ("terraform")) :
    ((∀ line ∈ rustLines w.sums,
        strHasSub line (assetName ("terraform") version w.osConst w.archConst) = false) →
      (installVersion w (some version)).fst = Except.error (("No checksum found for asset ") ++
          assetName ("terraform") version w.osConst w.archConst ++ (" in SHA256SUMS")) ∧
        ∀ e ∈ (installVersion w (some version)).snd, effPath e = none) ∧
    (findExpected w.sums (assetName ("terraform") version w.osConst w.archConst) =
        some w.artifactDigest →
      getEnvD w.trustTfenv ("") ≠ ("yes") → w.useGpgvFile = false →
      (w.zipEntries.find? (fun name =>
        strEnds name terraformBinaryName || strEnds name ("terraform"))).isSome = true →
      (installVersion w (some version)).fst = Except.ok ()) := by
  constructor
  · intro hnone
    have hfe : findExpected w.sums (assetName ("terraform") version w.osConst w.archConst) =
        none := findExpectedL_none _ _ hnone
    constructor
    · simp only [installVersion, Option.getD_some, hp, if_neg hv, hfe, if_true]
    · intro e he
      simp only [installVersion, Option.getD_some, hp, if_neg hv, hfe, if_true] at he
      simp only [List.cons_append, List.nil_append, List.mem_cons,
        List.not_mem_nil, or_false] at he
      rcases he with rfl | rfl
      · rfl
      · rfl
  · intro hfd hg1 hg2 hz
    obtain ⟨entry, hfind⟩ := Option.isSome_iff_exists.mp hz
    simp only [installVersion, Option.getD_some, hp, if_neg hv, hfd, if_true,
      decide_eq_false hg1, hg2, Bool.or_false, Bool.false_eq_true, if_false,
      installFinish, extractZipToVersion, hfind]
    simp

/-- Witness for C6 at concrete worlds: with no line mentioning the asset
the install fails with checksum-not-found and only fetch effects; with
the substring-matched digest equal to the computed one it succeeds. -/
theorem c6_witness :
    ((installVersion iwNone (some ("1.5.0"))).fst =
        Except.error (("No checksum found for asset ") ++
          assetName ("terraform") ("1.5.0") iwNone.osConst iwNone.archConst ++
          (" in SHA256SUMS")) ∧
      ∀ e ∈ (installVersion iwNone (some ("1.5.0"))).snd, effPath e = none) ∧
    (installVersion iw6 (some ("1.5.0"))).fst = Except.ok () :=
  ⟨(c6_contains_selects_digest iwNone ("1.5.0") (by decide) (by decide)).1 (by decide),
    (c6_contains_selects_digest iw6 ("1.5.0") (by decide) (by decide)).2
      (by decide) (by decide) rfl (by decide)⟩

end TfenvRs
